import Mathlib

/-!
Shallow embedding of the OS-DASHBOARD repository (server.cjs and the server
variants embedded in public/script.js).  JavaScript numbers are modelled as
rationals; `undefined` is `Option.none` or `JVal.undef`; the unavailable
marker string used for the battery field is `BatField.na`; JS `null` is
`BatField.nullv` / `JVal.null`.  `Number(x.toFixed(2))` and
`Math.round(x * 100) / 100` are both modelled by `round2`.
-/

namespace OSDash

/-- A JavaScript runtime value as the dashboard route handlers see one:
a finite number, a string (kept as a character list), a boolean, `null`
or `undefined`.  A non-finite numeric result (NaN or an infinity) is
representable only as the failure of the numeric coercion `jsToNum`. -/
inductive JVal where
  | num (q : ℚ)
  | str (s : List Char)
  | jbool (b : Bool)
  | null
  | undef
deriving DecidableEq, Repr

/-- The raw reading of `si.battery()`: fields the handlers consult.
`none` models a missing (`undefined`/`null`) field. -/
structure BatterySensor where
  hasbattery : Bool
  percent : Option ℚ
  ischarging : Option Bool
  maxcapacity : Option ℚ
deriving DecidableEq, Repr

/-- The value stored in a battery field of a snapshot: a number, the
string marker for unavailable, or JS `null`. -/
inductive BatField where
  | pct (q : ℚ)
  | na
  | nullv
deriving DecidableEq, Repr

/-- server.cjs lines 22-37, `getBatteryInfo`: on a reading with
`hasbattery` the percent (or the unavailable marker when the sensor omits
it), otherwise the marker; `none` input models a thrown query (the catch
branch) or a falsy result. -/
def getBatteryInfo (bq : Option BatterySensor) : BatField × Bool :=
  match bq with
  | some b =>
      if b.hasbattery then
        (match b.percent with
          | some p => BatField.pct p
          | none => BatField.na,
         b.ischarging.getD false)
      else (BatField.na, false)
  | none => (BatField.na, false)

/-- script.js line 615 (robust variant, `/api/snapshot`):
`battery?.hasbattery ? (battery.percent ?? 'N/A') : 'N/A'`. -/
def snapshotBatteryVal (bq : Option BatterySensor) : BatField :=
  match bq with
  | some b =>
      if b.hasbattery then
        match b.percent with
        | some p => BatField.pct p
        | none => BatField.na
      else BatField.na
  | none => BatField.na

/-- script.js line 674 (robust variant, cron logger):
`battery?.hasbattery ? (battery.percent ?? 'N/A') : 'N/A'`. -/
def cronBattVal (bq : Option BatterySensor) : BatField :=
  match bq with
  | some b =>
      if b.hasbattery then
        match b.percent with
        | some p => BatField.pct p
        | none => BatField.na
      else BatField.na
  | none => BatField.na

/-- script.js line 540 (robust variant, `/api/stats`):
`battery?.hasbattery ? (battery.percent ?? null) : null`. -/
def apiStatsBattery (bq : Option BatterySensor) : BatField :=
  match bq with
  | some b =>
      if b.hasbattery then
        match b.percent with
        | some p => BatField.pct p
        | none => BatField.nullv
      else BatField.nullv
  | none => BatField.nullv

/-- JS `Math.round`: round half toward positive infinity. -/
def jsRound (q : ℚ) : ℚ := (⌊q + 1/2⌋ : ℤ)

/-- Two-decimal rounding: models both `Number(x.toFixed(2))` and
`Math.round(x * 100) / 100` on the nonnegative values the handlers feed
it. -/
def round2 (q : ℚ) : ℚ := jsRound (q * 100) / 100

/-- The raw reading of `si.currentLoad()`; `none` models an absent
`currentLoad` field. -/
structure CpuSensor where
  currentLoad : Option ℚ
deriving DecidableEq, Repr

/-- The raw reading of `si.mem()`. -/
structure MemSensor where
  active : Option ℚ
  used : Option ℚ
  total : Option ℚ
deriving DecidableEq, Repr

/-- script.js line 538 (robust variant, `/api/stats`):
`Number(cpuLoad.currentLoad?.toFixed?.(2) ?? cpuLoad.currentLoad ?? 0)`. -/
def apiStatsCpu (c : CpuSensor) : ℚ :=
  match c.currentLoad with
  | some v => round2 v
  | none => 0

/-- script.js line 539 (robust variant, `/api/stats`):
`Number((((mem?.active ?? 0) / (mem?.total ?? 1)) * 100).toFixed(2))`. -/
def apiStatsRam (m : MemSensor) : ℚ :=
  round2 (m.active.getD 0 / m.total.getD 1 * 100)

/-- script.js line 672 (robust variant, cron logger):
`Number(cpu.currentLoad?.toFixed?.(2) ?? cpu.currentLoad ?? 0)`. -/
def cronCpuVal (c : CpuSensor) : ℚ :=
  match c.currentLoad with
  | some v => round2 v
  | none => 0

/-- script.js line 673 (robust variant, cron logger):
`Number((((mem?.active ?? 0) / (mem?.total ?? 1)) * 100).toFixed(2))`. -/
def cronRamVal (m : MemSensor) : ℚ :=
  round2 (m.active.getD 0 / m.total.getD 1 * 100)

/-- The result of `toFixed(2)` in server.cjs `getSystemInfo`, kept with the
information a consumer can read back: a finite rounded value, the NaN
string, an infinity string, or the unavailable marker of the catch
branch. -/
inductive FixedStr where
  | val (q : ℚ)
  | nanStr
  | infStr (pos : Bool)
  | naStr
deriving DecidableEq, Repr

/-- server.cjs line 49: `((mem.used / mem.total) * 100).toFixed(2)`,
with JS division semantics: a missing operand gives NaN, division by zero
gives a signed infinity (NaN for 0/0). -/
def memUsageFixed (m : MemSensor) : FixedStr :=
  match m.used, m.total with
  | some u, some t =>
      if t = 0 then
        (if u = 0 then FixedStr.nanStr else FixedStr.infStr (decide (0 < u)))
      else FixedStr.val (round2 (u / t * 100))
  | _, _ => FixedStr.nanStr

/-- The record server.cjs `getSystemInfo` returns. -/
structure SysInfo where
  cpu : FixedStr
  memory : FixedStr
  battery : BatField
  charging : Option Bool
deriving DecidableEq, Repr

/-- server.cjs lines 40-61, `getSystemInfo`: an absent `currentLoad` makes
`cpu.currentLoad.toFixed(2)` throw, landing in the catch branch that
returns the all-marker record (with `charging` left undefined). -/
def getSystemInfo (c : CpuSensor) (m : MemSensor) (b : BatField × Bool) : SysInfo :=
  match c.currentLoad with
  | none => ⟨FixedStr.naStr, FixedStr.naStr, BatField.na, none⟩
  | some cv => ⟨FixedStr.val (round2 cv), memUsageFixed m, b.1, some b.2⟩

/-- server.cjs lines 64-67: the live `/api/resource` route body. -/
def resourceInfo (c : CpuSensor) (m : MemSensor) (b : BatField × Bool) : SysInfo :=
  getSystemInfo c m b

/-- server.cjs lines 70-86: the record the scheduled cron job logs. -/
def cronLoggedInfo (c : CpuSensor) (m : MemSensor) (b : BatField × Bool) : SysInfo :=
  getSystemInfo c m b

/-- A battery field that is well formed: one of the two explicit absent
markers, or a number within zero to one hundred. -/
def batFieldOk (f : BatField) : Prop :=
  f = BatField.na ∨ f = BatField.nullv ∨ ∃ q, f = BatField.pct q ∧ 0 ≤ q ∧ q ≤ 100

/-- The raw reading of `si.powerSupply()` as the fallback consults it. -/
structure PowerSupplySensor where
  percent : Option ℚ
deriving DecidableEq, Repr

/-- script.js lines 334-337 (powerSupply-fallback variant): the primary
reading signals a battery when `hasbattery`, or `percent > 0`, or
`maxcapacity > 0` (JS comparison against a missing field is false). -/
def batteryPresentSignal (b : BatterySensor) : Bool :=
  b.hasbattery
    || (match b.percent with
        | some p => decide (0 < p)
        | none => false)
    || (match b.maxcapacity with
        | some m => decide (0 < m)
        | none => false)

/-- script.js lines 329-350 (powerSupply-fallback variant,
`getBatteryInfo`): return `battery.percent ?? null` when the primary
signals presence, otherwise `ps.percent` when that is truthy (present and
nonzero), otherwise `null`; a thrown query (`none`) also yields `null`. -/
def getBatteryInfoPS (bq : Option BatterySensor) (ps : Option PowerSupplySensor) :
    Option ℚ :=
  match bq with
  | none => none
  | some b =>
      if batteryPresentSignal b then b.percent
      else
        match ps with
        | some p =>
            match p.percent with
            | some q => if q = 0 then none else some q
            | none => none
        | none => none

/-- The primary sensor signals presence and actually reports a percent. -/
def primaryReports (bq : Option BatterySensor) : Prop :=
  ∃ b p, bq = some b ∧ batteryPresentSignal b = true ∧ b.percent = some p

/-- The primary query succeeded but signalled no battery, and the
secondary power-supply query reports a nonzero percent. -/
def fallbackReports (bq : Option BatterySensor) (ps : Option PowerSupplySensor) :
    Prop :=
  (∃ b, bq = some b ∧ batteryPresentSignal b = false) ∧
    ∃ p q, ps = some p ∧ p.percent = some q ∧ q ≠ 0

/-- C1: every battery field the system hands out — server.cjs
`getBatteryInfo` (feeding `/api/resource` and its cron logger), the robust
variant's `/api/stats`, its cron logger, and its `/api/snapshot` export —
is an explicit absent marker or a number in the zero-to-one-hundred range
(given the sensor reports percents in that range); and whenever a battery
is present with a reported percent, the numeric value is returned, never
the placeholder marker. -/
theorem battery_marker_or_percent (bq : Option BatterySensor)
    (h : ∀ b p, bq = some b → b.percent = some p → 0 ≤ p ∧ p ≤ 100) :
    batFieldOk (getBatteryInfo bq).1 ∧
      batFieldOk (snapshotBatteryVal bq) ∧
      batFieldOk (cronBattVal bq) ∧
      batFieldOk (apiStatsBattery bq) ∧
      (∀ b p, bq = some b → b.hasbattery = true → b.percent = some p →
        (getBatteryInfo bq).1 = BatField.pct p ∧
          snapshotBatteryVal bq = BatField.pct p ∧
          cronBattVal bq = BatField.pct p ∧
          apiStatsBattery bq = BatField.pct p) := by
  match bq with
  | none =>
      refine ⟨Or.inl rfl, Or.inl rfl, Or.inl rfl, Or.inr (Or.inl rfl), ?_⟩
      intro b p hb
      exact absurd hb (by simp)
  | some b =>
      match hbat : b.hasbattery, hp : b.percent with
      | true, some p =>
          have hrange := h b p rfl hp
          refine ⟨?_, ?_, ?_, ?_, ?_⟩
          · exact Or.inr (Or.inr ⟨p, by simp [getBatteryInfo, hbat, hp], hrange.1, hrange.2⟩)
          · exact Or.inr (Or.inr ⟨p, by simp [snapshotBatteryVal, hbat, hp], hrange.1, hrange.2⟩)
          · exact Or.inr (Or.inr ⟨p, by simp [cronBattVal, hbat, hp], hrange.1, hrange.2⟩)
          · exact Or.inr (Or.inr ⟨p, by simp [apiStatsBattery, hbat, hp], hrange.1, hrange.2⟩)
          · rintro b2 p2 hb2 _ hp2
            obtain rfl : b = b2 := by injection hb2
            rw [hp] at hp2
            obtain rfl : p = p2 := by injection hp2
            exact ⟨by simp [getBatteryInfo, hbat, hp], by simp [snapshotBatteryVal, hbat, hp],
              by simp [cronBattVal, hbat, hp], by simp [apiStatsBattery, hbat, hp]⟩
      | true, none =>
          refine ⟨Or.inl ?_, Or.inl ?_, Or.inl ?_, Or.inr (Or.inl ?_), ?_⟩
          · simp [getBatteryInfo, hbat, hp]
          · simp [snapshotBatteryVal, hbat, hp]
          · simp [cronBattVal, hbat, hp]
          · simp [apiStatsBattery, hbat, hp]
          · rintro b2 p2 hb2 _ hp2
            obtain rfl : b = b2 := by injection hb2
            rw [hp] at hp2
            exact absurd hp2 (by simp)
      | false, _ =>
          refine ⟨Or.inl ?_, Or.inl ?_, Or.inl ?_, Or.inr (Or.inl ?_), ?_⟩
          · simp [getBatteryInfo, hbat]
          · simp [snapshotBatteryVal, hbat]
          · simp [cronBattVal, hbat]
          · simp [apiStatsBattery, hbat]
          · rintro b2 p2 hb2 hbat2 _
            obtain rfl : b = b2 := by injection hb2
            rw [hbat] at hbat2
            exact absurd hbat2 (by simp)

/-- C1 witness: a concrete battery reading at seventy seven percent. -/
theorem battery_marker_or_percent_witness :
    batFieldOk (getBatteryInfo (some ⟨true, some 77, some true, some 100⟩)).1 ∧
      batFieldOk (snapshotBatteryVal (some ⟨true, some 77, some true, some 100⟩)) ∧
      batFieldOk (cronBattVal (some ⟨true, some 77, some true, some 100⟩)) ∧
      batFieldOk (apiStatsBattery (some ⟨true, some 77, some true, some 100⟩)) ∧
      (∀ b p, (some ⟨true, some 77, some true, some 100⟩ : Option BatterySensor) = some b →
        b.hasbattery = true → b.percent = some p →
        (getBatteryInfo (some ⟨true, some 77, some true, some 100⟩)).1 = BatField.pct p ∧
          snapshotBatteryVal (some ⟨true, some 77, some true, some 100⟩) = BatField.pct p ∧
          cronBattVal (some ⟨true, some 77, some true, some 100⟩) = BatField.pct p ∧
          apiStatsBattery (some ⟨true, some 77, some true, some 100⟩) = BatField.pct p) :=
  battery_marker_or_percent (some ⟨true, some 77, some true, some 100⟩)
    (by
      rintro b p hb hp
      obtain rfl : (⟨true, some 77, some true, some 100⟩ : BatterySensor) = b := by
        injection hb
      simp only [] at hp
      obtain rfl : (77 : ℚ) = p := by injection hp
      norm_num)

/-- C2: the live-query path and the scheduled-logger path agree on every
sensor reading.  In server.cjs the `/api/resource` route and the cron job
both call `getSystemInfo`, and in the robust script.js variant the
`/api/stats` route and the cron logger compute identical cpu and ram
values — the same `active` memory field and the same two-decimal rounding
— for every reading, so the two paths can never disagree. -/
theorem live_and_logger_agree :
    (∀ c m b, resourceInfo c m b = cronLoggedInfo c m b) ∧
      (∀ c, apiStatsCpu c = cronCpuVal c) ∧
      (∀ m, apiStatsRam m = cronRamVal m) :=
  ⟨fun _ _ _ => rfl, fun _ => rfl, fun _ => rfl⟩

/-- C3 counterexample: the claim says the fallback battery query returns a
reading exactly when the primary signals presence or the secondary reports
a percent.  On the reading with `hasbattery` true but no reported percent
(and no secondary data), presence is signalled yet the query returns the
absent marker, so the stated equivalence is false. -/
theorem battery_fallback_claim_counterexample :
    ¬ ((getBatteryInfoPS (some ⟨true, none, none, none⟩) none ≠ none) ↔
        ((∃ b, (some (⟨true, none, none, none⟩ : BatterySensor)) = some b ∧
            (b.hasbattery = true ∨ (∃ p, b.percent = some p ∧ p ≠ 0) ∨
              (∃ m, b.maxcapacity = some m ∧ m ≠ 0))) ∨
          (∃ ps q, (none : Option PowerSupplySensor) = some ps ∧
            ps.percent = some q))) := by
  intro h
  have hres : getBatteryInfoPS (some ⟨true, none, none, none⟩) none = none := rfl
  exact h.mpr (Or.inl ⟨⟨true, none, none, none⟩, rfl, Or.inl rfl⟩) hres

/-- C3 amended: the fallback battery query returns a reading exactly when
the primary signals presence (`hasbattery`, or percent above zero, or max
capacity above zero) and actually reports a percent, or — presence not
being signalled — the secondary power-supply query reports a nonzero
percent; otherwise the explicit absent marker.  Every returned reading is
a value one of the two sensors reported: the query never synthesizes a
fabricated one. -/
theorem battery_fallback_characterization (bq : Option BatterySensor)
    (ps : Option PowerSupplySensor) :
    ((getBatteryInfoPS bq ps ≠ none) ↔ primaryReports bq ∨ fallbackReports bq ps) ∧
      (∀ q, getBatteryInfoPS bq ps = some q →
        (∃ b, bq = some b ∧ b.percent = some q) ∨
          (∃ p, ps = some p ∧ p.percent = some q)) := by
  constructor
  · match bq with
    | none =>
        simp [getBatteryInfoPS, primaryReports, fallbackReports]
    | some b =>
        match hs : batteryPresentSignal b with
        | true =>
            match hp : b.percent with
            | some p =>
                simp [getBatteryInfoPS, hs, hp, primaryReports, fallbackReports]
            | none =>
                simp [getBatteryInfoPS, hs, hp, primaryReports, fallbackReports]
        | false =>
            match ps with
            | none =>
                simp [getBatteryInfoPS, hs, primaryReports, fallbackReports]
            | some p =>
                match hq : p.percent with
                | none =>
                    simp [getBatteryInfoPS, hs, hq, primaryReports, fallbackReports]
                | some q =>
                    by_cases h0 : q = 0 <;>
                      simp [getBatteryInfoPS, hs, hq, h0, primaryReports,
                        fallbackReports]
  · intro q hq
    match bq with
    | none => exact absurd hq (by simp [getBatteryInfoPS])
    | some b =>
        by_cases hs : batteryPresentSignal b = true
        · left
          refine ⟨b, rfl, ?_⟩
          simpa [getBatteryInfoPS, hs] using hq
        · right
          have hsf : batteryPresentSignal b = false := by
            cases hb : batteryPresentSignal b
            · rfl
            · exact absurd hb hs
          match ps with
          | none =>
              exact absurd hq (by simp [getBatteryInfoPS, hsf])
          | some p =>
              refine ⟨p, rfl, ?_⟩
              match hqq : p.percent with
              | none =>
                  exact absurd hq (by simp [getBatteryInfoPS, hsf, hqq])
              | some r =>
                  by_cases h0 : r = 0
                  · exact absurd hq (by simp [getBatteryInfoPS, hsf, hqq, h0])
                  · have hrq : some r = some q := by
                      simpa [getBatteryInfoPS, hsf, hqq, h0] using hq
                    rw [← hrq]

/-- Two-decimal rounding keeps a value inside the zero-to-one-hundred
range. -/
theorem round2_bounds {q : ℚ} (h0 : 0 ≤ q) (h100 : q ≤ 100) :
    0 ≤ round2 q ∧ round2 q ≤ 100 := by
  unfold round2 jsRound
  constructor
  · have h1 : (0 : ℤ) ≤ ⌊q * 100 + 1/2⌋ := by
      rw [Int.le_floor]
      push_cast
      linarith
    have h2 : (0 : ℚ) ≤ ((⌊q * 100 + 1/2⌋ : ℤ) : ℚ) := by exact_mod_cast h1
    exact div_nonneg h2 (by norm_num)
  · have h1 : ⌊q * 100 + 1/2⌋ < 10001 := by
      rw [Int.floor_lt]
      push_cast
      linarith
    have h2 : ((⌊q * 100 + 1/2⌋ : ℤ) : ℚ) ≤ 10000 := by
      exact_mod_cast Int.lt_add_one_iff.mp h1
    rw [div_le_iff₀ (by norm_num : (0 : ℚ) < 100)]
    linarith

/-- C6: for a valid poll — the cpu sensor reporting a load inside the
percent range when it reports at all, and the memory sensor reporting a
nonnegative active amount no larger than a positive total — the cpu and
ram fields of the `/api/stats` response lie in the zero-to-one-hundred
range. -/
theorem stats_percent_bounds (c : CpuSensor) (m : MemSensor)
    (hc : ∀ v, c.currentLoad = some v → 0 ≤ v ∧ v ≤ 100)
    (ha : 0 ≤ m.active.getD 0)
    (hat : m.active.getD 0 ≤ m.total.getD 1)
    (ht : 0 < m.total.getD 1) :
    0 ≤ apiStatsCpu c ∧ apiStatsCpu c ≤ 100 ∧
      0 ≤ apiStatsRam m ∧ apiStatsRam m ≤ 100 := by
  have hdiv : 0 ≤ m.active.getD 0 / m.total.getD 1 * 100 ∧
      m.active.getD 0 / m.total.getD 1 * 100 ≤ 100 := by
    have hd1 : m.active.getD 0 / m.total.getD 1 ≤ 1 := (div_le_one ht).mpr hat
    have hd0 : 0 ≤ m.active.getD 0 / m.total.getD 1 := div_nonneg ha (le_of_lt ht)
    constructor
    · linarith
    · linarith
  have hram := round2_bounds hdiv.1 hdiv.2
  match hcl : c.currentLoad with
  | none =>
      refine ⟨?_, ?_, ?_, ?_⟩
      · simp [apiStatsCpu, hcl]
      · simp [apiStatsCpu, hcl]
      · exact hram.1
      · exact hram.2
  | some v =>
      have hv := hc v hcl
      have hcpu := round2_bounds hv.1 hv.2
      refine ⟨?_, ?_, hram.1, hram.2⟩
      · simpa [apiStatsCpu, hcl] using hcpu.1
      · simpa [apiStatsCpu, hcl] using hcpu.2

/-- C6 witness: a concrete poll at fifty percent load with four of eight
units of memory active. -/
theorem stats_percent_bounds_witness :
    0 ≤ apiStatsCpu ⟨some 50⟩ ∧ apiStatsCpu ⟨some 50⟩ ≤ 100 ∧
      0 ≤ apiStatsRam ⟨some 4, some 6, some 8⟩ ∧
      apiStatsRam ⟨some 4, some 6, some 8⟩ ≤ 100 :=
  stats_percent_bounds ⟨some 50⟩ ⟨some 4, some 6, some 8⟩
    (by
      rintro v hv
      obtain rfl : (50 : ℚ) = v := by injection hv
      norm_num)
    (by norm_num) (by norm_num) (by norm_num)

/-- The process-wide mutable threshold configuration. -/
structure Thresholds where
  cpu : ℚ
  ram : ℚ
  battery : ℚ
deriving DecidableEq, Repr

/-- The parsed JSON body of a threshold update; a field the client did not
send is `JVal.undef`. -/
structure ThresholdBody where
  cpu : JVal
  ram : JVal
  battery : JVal
deriving DecidableEq, Repr

/-- JS `typeof v === 'number'`. -/
def isNumberJV : JVal → Bool
  | JVal.num _ => true
  | _ => false

/-- script.js lines 656-666, `POST /api/thresholds`: each body field is
applied only when it is a number, otherwise the previous value is kept. -/
def updateThresholds (t : Thresholds) (b : ThresholdBody) : Thresholds :=
  { cpu := match b.cpu with
      | JVal.num q => q
      | _ => t.cpu
    ram := match b.ram with
      | JVal.num q => q
      | _ => t.ram
    battery := match b.battery with
      | JVal.num q => q
      | _ => t.battery }

/-- script.js line 662: the route responds with success and the resulting
configuration. -/
def postThresholds (t : Thresholds) (b : ThresholdBody) : Bool × Thresholds :=
  (true, updateThresholds t b)

/-- C7: the threshold update applies exactly the numeric body fields and
ignores (rather than rejects) the others, so an update carrying only a
numeric cpu leaves ram and battery at their prior values; the response
carries the resulting full configuration. -/
theorem thresholds_permissive_merge (t : Thresholds) (b : ThresholdBody) :
    (isNumberJV b.cpu = false → (updateThresholds t b).cpu = t.cpu) ∧
      (isNumberJV b.ram = false → (updateThresholds t b).ram = t.ram) ∧
      (isNumberJV b.battery = false → (updateThresholds t b).battery = t.battery) ∧
      (∀ q, b.cpu = JVal.num q → (updateThresholds t b).cpu = q) ∧
      (∀ q, b.ram = JVal.num q → (updateThresholds t b).ram = q) ∧
      (∀ q, b.battery = JVal.num q → (updateThresholds t b).battery = q) ∧
      postThresholds t b = (true, updateThresholds t b) := by
  refine ⟨?_, ?_, ?_, ?_, ?_, ?_, rfl⟩
  · intro h
    cases hb : b.cpu <;> simp_all [updateThresholds, isNumberJV]
  · intro h
    cases hb : b.ram <;> simp_all [updateThresholds, isNumberJV]
  · intro h
    cases hb : b.battery <;> simp_all [updateThresholds, isNumberJV]
  · intro q hq
    simp [updateThresholds, hq]
  · intro q hq
    simp [updateThresholds, hq]
  · intro q hq
    simp [updateThresholds, hq]

/-- Whitespace as JS `trim` and `Number` treat it (the ASCII fragment the
dashboard meets). -/
def isWsChar (c : Char) : Bool :=
  c = ' ' || c = '\n' || c = '\t' || c = '\r'

/-- JS `String.prototype.trim` on a character list. -/
def trimWs (s : List Char) : List Char :=
  ((s.dropWhile isWsChar).reverse.dropWhile isWsChar).reverse

/-- Decimal digits to a natural number; `none` when a non-digit occurs. -/
def digitsToNat : List Char → ℕ → Option ℕ
  | [], acc => some acc
  | c :: cs, acc =>
      if c.isDigit then digitsToNat cs (acc * 10 + (c.toNat - 48)) else none

/-- Value of a hexadecimal digit. -/
def hexDigitVal (c : Char) : Option ℕ :=
  if c.isDigit then some (c.toNat - 48)
  else if 'a' ≤ c ∧ c ≤ 'f' then some (c.toNat - 87)
  else if 'A' ≤ c ∧ c ≤ 'F' then some (c.toNat - 55)
  else none

/-- Value of a decimal digit below the given bound (octal and binary
digits). -/
def digitBelow (k : ℕ) (c : Char) : Option ℕ :=
  if c.isDigit ∧ c.toNat - 48 < k then some (c.toNat - 48) else none

/-- Digits of a given base folded to a natural number; `none` on a bad
character (callers require at least one digit themselves). -/
def baseDigitsToNat (base : ℕ) (dv : Char → Option ℕ) :
    List Char → ℕ → Option ℕ
  | [], acc => some acc
  | c :: cs, acc =>
      match dv c with
      | some d => baseDigitsToNat base dv cs (acc * base + d)
      | none => none

/-- The exponent part after the letter e of a numeric literal: an
optional sign and at least one digit. -/
def parseExpPart (s : List Char) : Option ℤ :=
  match s with
  | [] => none
  | '+' :: r =>
      if r = [] then none else (digitsToNat r 0).map (fun n => (n : ℤ))
  | '-' :: r =>
      if r = [] then none else (digitsToNat r 0).map (fun n => -(n : ℤ))
  | r => (digitsToNat r 0).map (fun n => (n : ℤ))

/-- An unsigned decimal numeral as JS `Number()` accepts one: digits with
an optional fractional part and an optional exponent part (at least one
digit before or after the point). -/
def parseUnsigned (s : List Char) : Option ℚ :=
  match s.span Char.isDigit with
  | (intPart, rest) =>
      match rest with
      | [] =>
          if intPart = [] then none
          else (digitsToNat intPart 0).map (fun n => (n : ℚ))
      | c :: tail =>
          if c = '.' then
            match tail.span Char.isDigit with
            | (fracPart, rest2) =>
                if intPart = [] && fracPart = [] then none
                else
                  match digitsToNat intPart 0, digitsToNat fracPart 0 with
                  | some i, some f =>
                      let base : ℚ := (i : ℚ) + (f : ℚ) / (10 : ℚ) ^ fracPart.length
                      match rest2 with
                      | [] => some base
                      | e :: etail =>
                          if e = 'e' ∨ e = 'E' then
                            (parseExpPart etail).map (fun x => base * (10 : ℚ) ^ x)
                          else none
                  | _, _ => none
          else if (c = 'e' ∨ c = 'E') ∧ intPart ≠ [] then
            match digitsToNat intPart 0 with
            | some i => (parseExpPart tail).map (fun x => (i : ℚ) * (10 : ℚ) ^ x)
            | none => none
          else none

/-- A radix-prefixed unsigned integer literal: hexadecimal, octal or
binary (JS accepts no sign in front of these). -/
def parseRadix (s : List Char) : Option ℚ :=
  match s with
  | '0' :: c :: r =>
      if c = 'x' ∨ c = 'X' then
        if r = [] then none
        else (baseDigitsToNat 16 hexDigitVal r 0).map (fun n => (n : ℚ))
      else if c = 'o' ∨ c = 'O' then
        if r = [] then none
        else (baseDigitsToNat 8 (digitBelow 8) r 0).map (fun n => (n : ℚ))
      else if c = 'b' ∨ c = 'B' then
        if r = [] then none
        else (baseDigitsToNat 2 (digitBelow 2) r 0).map (fun n => (n : ℚ))
      else none
  | _ => none

/-- JS `Number()` on a string: whitespace is trimmed, the empty string is
zero, a radix-prefixed literal is unsigned, otherwise an optional sign
precedes a decimal literal with optional fraction and exponent.  The
result is `none` when the coercion yields no finite number: malformed
input (NaN) and the Infinity strings, which the decimal grammar rejects.
IEEE doubles are idealized as exact rationals, as everywhere in this
embedding. -/
def strToNum (s : List Char) : Option ℚ :=
  match trimWs s with
  | [] => some 0
  | t =>
      match parseRadix t with
      | some q => some q
      | none =>
          match t with
          | '-' :: r => (parseUnsigned r).map (fun q => -q)
          | '+' :: r => parseUnsigned r
          | _ => parseUnsigned t

/-- JS numeric coercion `Number(v)`; `none` when the result is not a
finite number (NaN or an infinity) — exactly the values the
`Number.isFinite` guard of `safeNum` rejects. -/
def jsToNum : JVal → Option ℚ
  | JVal.num q => some q
  | JVal.str s => strToNum s
  | JVal.jbool b => some (if b then 1 else 0)
  | JVal.null => some 0
  | JVal.undef => none

/-- JS nullish coalescing `a ?? b`. -/
def jsCoalesce (a b : JVal) : JVal :=
  match a with
  | JVal.undef => b
  | JVal.null => b
  | v => v

/-- A raw process entry from `si.processes()`; a property the sensor did
not set is `JVal.undef` (for the name fields, `none`). -/
structure ProcRaw where
  pid : JVal
  name : Option (List Char)
  command : Option (List Char)
  pcpu : JVal
  cpu : JVal
  cpuPercent : JVal
  cpuUsage : JVal
  pmem : JVal
  mem : JVal
  memPercent : JVal
deriving DecidableEq, Repr

/-- script.js lines 566-570, `safeNum`: `undefined` and `null` become
zero, then `Number(v)` guarded by `Number.isFinite` — a coercion that is
not a finite number also becomes zero. -/
def safeNum (v : JVal) : ℚ :=
  match v with
  | JVal.undef => 0
  | JVal.null => 0
  | v =>
      match jsToNum v with
      | some n => n
      | none => 0

/-- script.js line 573:
`p.pcpu ?? p.cpu ?? p.cpuPercent ?? p.cpuUsage ?? 0`. -/
def cpuRawOf (p : ProcRaw) : JVal :=
  jsCoalesce p.pcpu (jsCoalesce p.cpu (jsCoalesce p.cpuPercent
    (jsCoalesce p.cpuUsage (JVal.num 0))))

/-- script.js line 574: `p.pmem ?? p.mem ?? p.memPercent ?? 0`. -/
def memRawOf (p : ProcRaw) : JVal :=
  jsCoalesce p.pmem (jsCoalesce p.mem (jsCoalesce p.memPercent (JVal.num 0)))

/-- script.js line 579: `p.name ?? p.command ?? 'unknown'`. -/
def nameOf (p : ProcRaw) : List Char :=
  match p.name with
  | some s => s
  | none =>
      match p.command with
      | some s => s
      | none => ['u', 'n', 'k', 'n', 'o', 'w', 'n']

/-- A normalized process sample as `/api/processes` emits one. -/
structure Proc where
  pid : JVal
  name : List Char
  cpu : ℚ
  mem : ℚ
deriving DecidableEq, Repr

/-- script.js lines 572-583 (robust variant): normalize one raw entry,
coercing missing or non-numeric cpu and memory to zero and rounding to
two decimals. -/
def normProc (p : ProcRaw) : Proc :=
  { pid := jsCoalesce p.pid JVal.null
    name := nameOf p
    cpu := round2 (safeNum (cpuRawOf p))
    mem := round2 (safeNum (memRawOf p)) }

/-- Insertion into a descending-by-cpu list that keeps the inserted
element before later-enumerated ties: the stable behaviour of
`Array.prototype.sort` under the comparator
`(a, b) => (b.cpu ?? 0) - (a.cpu ?? 0)` of script.js line 585. -/
def insertByCpu (x : Proc) : List Proc → List Proc
  | [] => [x]
  | y :: ys => if x.cpu < y.cpu then y :: insertByCpu x ys else x :: y :: ys

/-- The stable descending sort by normalized cpu value. -/
def sortByCpuDesc : List Proc → List Proc
  | [] => []
  | x :: xs => insertByCpu x (sortByCpuDesc xs)

/-- script.js lines 561-591, `/api/processes` (robust variant): normalize
every entry, sort descending by cpu, answer the first five. -/
def apiProcesses (l : List ProcRaw) : List Proc :=
  (sortByCpuDesc (l.map normProc)).take 5

/-- Membership in an insertion is membership in the parts. -/
theorem mem_insertByCpu (x z : Proc) : ∀ l : List Proc,
    z ∈ insertByCpu x l ↔ z = x ∨ z ∈ l
  | [] => by simp [insertByCpu]
  | y :: ys => by
      by_cases h : x.cpu < y.cpu
      · simp only [insertByCpu, if_pos h, List.mem_cons, mem_insertByCpu x z ys]
        tauto
      · simp only [insertByCpu, if_neg h, List.mem_cons]
        try tauto

/-- Inserting preserves the descending-by-cpu pairwise order. -/
theorem pairwise_insertByCpu (x : Proc) :
    ∀ l : List Proc, List.Pairwise (fun a b => b.cpu ≤ a.cpu) l →
      List.Pairwise (fun a b => b.cpu ≤ a.cpu) (insertByCpu x l)
  | [], _ => by simp [insertByCpu]
  | y :: ys, h => by
      rcases List.pairwise_cons.mp h with ⟨hy, hys⟩
      by_cases hxy : x.cpu < y.cpu
      · simp only [insertByCpu, if_pos hxy]
        refine List.pairwise_cons.mpr ⟨?_, pairwise_insertByCpu x ys hys⟩
        intro z hz
        rcases (mem_insertByCpu x z ys).mp hz with rfl | hzys
        · exact le_of_lt hxy
        · exact hy z hzys
      · simp only [insertByCpu, if_neg hxy]
        refine List.pairwise_cons.mpr ⟨?_, h⟩
        intro z hz
        rcases List.mem_cons.mp hz with rfl | hzys
        · exact le_of_not_lt hxy
        · exact le_trans (hy z hzys) (le_of_not_lt hxy)

/-- The sort is descending by cpu. -/
theorem pairwise_sortByCpuDesc : ∀ l : List Proc,
    List.Pairwise (fun a b => b.cpu ≤ a.cpu) (sortByCpuDesc l)
  | [] => by simp [sortByCpuDesc]
  | x :: xs => pairwise_insertByCpu x (sortByCpuDesc xs) (pairwise_sortByCpuDesc xs)

/-- Insertion and filtering on one cpu value commute: the inserted
element lands in front of the equal-cpu block. -/
theorem filter_insertByCpu (x : Proc) (c : ℚ) :
    ∀ l : List Proc,
      (insertByCpu x l).filter (fun p => decide (p.cpu = c)) =
        if x.cpu = c then x :: l.filter (fun p => decide (p.cpu = c))
        else l.filter (fun p => decide (p.cpu = c))
  | [] => by
      by_cases h : x.cpu = c <;> simp [insertByCpu, h]
  | y :: ys => by
      have hrec := filter_insertByCpu x c ys
      by_cases hxy : x.cpu < y.cpu
      · by_cases hx : x.cpu = c
        · have hyc : ¬(y.cpu = c) := by
            intro hyc
            rw [hx, hyc] at hxy
            exact lt_irrefl c hxy
          simp only [insertByCpu, if_pos hxy]
          simp [List.filter_cons, hx, hyc, hrec]
        · simp only [insertByCpu, if_pos hxy]
          simp [List.filter_cons, hx, hrec]
      · by_cases hx : x.cpu = c
        · simp only [insertByCpu, if_neg hxy]
          simp [List.filter_cons, hx]
        · simp only [insertByCpu, if_neg hxy]
          simp [List.filter_cons, hx]

/-- Sorting does not disturb the relative order of equal-cpu entries. -/
theorem filter_sortByCpuDesc (c : ℚ) : ∀ l : List Proc,
    (sortByCpuDesc l).filter (fun p => decide (p.cpu = c)) =
      l.filter (fun p => decide (p.cpu = c))
  | [] => rfl
  | x :: xs => by
      have h1 := filter_insertByCpu x c (sortByCpuDesc xs)
      have h2 := filter_sortByCpuDesc c xs
      by_cases hx : x.cpu = c
      · simp [sortByCpuDesc, h1, hx, h2, List.filter_cons]
      · simp [sortByCpuDesc, h1, hx, h2, List.filter_cons]

/-- C4: `/api/processes` answers at most five entries, pairwise descending
by normalized cpu (so each adjacent pair satisfies earlier cpu at least
later cpu), the answer is the first five of the sorted list, and sorting
keeps every block of equal-cpu entries in original enumeration order
(stability). -/
theorem processes_top5_sorted_stable (l : List ProcRaw) :
    (apiProcesses l).length ≤ 5 ∧
      List.Pairwise (fun a b => b.cpu ≤ a.cpu) (apiProcesses l) ∧
      apiProcesses l = (sortByCpuDesc (l.map normProc)).take 5 ∧
      ∀ c : ℚ,
        (sortByCpuDesc (l.map normProc)).filter (fun p => decide (p.cpu = c)) =
          (l.map normProc).filter (fun p => decide (p.cpu = c)) := by
  refine ⟨?_, ?_, rfl, fun c => filter_sortByCpuDesc c (l.map normProc)⟩
  · exact List.length_take_le 5 (sortByCpuDesc (l.map normProc))
  · exact List.Pairwise.sublist (List.take_sublist 5 _)
      (pairwise_sortByCpuDesc (l.map normProc))

/-- A value the `??` operator skips: `undefined` or `null`. -/
def isNullish : JVal → Bool
  | JVal.undef => true
  | JVal.null => true
  | _ => false

/-- Coalescing skips a nullish left operand. -/
theorem jsCoalesce_of_nullish {v : JVal} (h : isNullish v = true) (b : JVal) :
    jsCoalesce v b = b := by
  cases v <;> simp_all [isNullish, jsCoalesce]

/-- A value whose coercion is not a finite number is made zero by
`safeNum`. -/
theorem safeNum_of_not_finite {v : JVal} (h : jsToNum v = none) :
    safeNum v = 0 := by
  cases v <;> simp_all [safeNum, jsToNum]

/-- Rounding zero to two decimals is zero. -/
theorem round2_zero : round2 0 = 0 := by
  unfold round2 jsRound
  norm_num

/-- C8: normalization never yields NaN or undefined and never throws (it
is a total function into rationals): a cpu field whose whole coalescing
chain is missing is coerced to the literal zero, a coalesced cpu field
that does not coerce to a finite number is coerced to zero, and the same
holds for the memory field independently; rounded to two decimals these
are still zero, and the sorted list is pairwise descending by cpu, so
such an entry comes after every entry with higher cpu. -/
theorem normalize_coerces_to_zero (l : List ProcRaw) (p : ProcRaw) :
    ((isNullish p.pcpu = true ∧ isNullish p.cpu = true ∧
        isNullish p.cpuPercent = true ∧ isNullish p.cpuUsage = true) →
      (normProc p).cpu = 0) ∧
      (jsToNum (cpuRawOf p) = none → (normProc p).cpu = 0) ∧
      ((isNullish p.pmem = true ∧ isNullish p.mem = true ∧
          isNullish p.memPercent = true) →
        (normProc p).mem = 0) ∧
      (jsToNum (memRawOf p) = none → (normProc p).mem = 0) ∧
      List.Pairwise (fun a b => b.cpu ≤ a.cpu) (sortByCpuDesc (l.map normProc)) := by
  refine ⟨?_, ?_, ?_, ?_, pairwise_sortByCpuDesc (l.map normProc)⟩
  · rintro ⟨h1, h2, h3, h4⟩
    have hraw : cpuRawOf p = JVal.num 0 := by
      unfold cpuRawOf
      rw [jsCoalesce_of_nullish h1, jsCoalesce_of_nullish h2,
        jsCoalesce_of_nullish h3, jsCoalesce_of_nullish h4]
    show round2 (safeNum (cpuRawOf p)) = 0
    rw [hraw, show safeNum (JVal.num 0) = 0 from rfl, round2_zero]
  · intro hc
    show round2 (safeNum (cpuRawOf p)) = 0
    rw [safeNum_of_not_finite hc, round2_zero]
  · rintro ⟨h1, h2, h3⟩
    have hraw : memRawOf p = JVal.num 0 := by
      unfold memRawOf
      rw [jsCoalesce_of_nullish h1, jsCoalesce_of_nullish h2,
        jsCoalesce_of_nullish h3]
    show round2 (safeNum (memRawOf p)) = 0
    rw [hraw, show safeNum (JVal.num 0) = 0 from rfl, round2_zero]
  · intro hm
    show round2 (safeNum (memRawOf p)) = 0
    rw [safeNum_of_not_finite hm, round2_zero]

/-- A raw entry whose cpu field is the non-numeric string abc and whose
memory field is the non-numeric string x. -/
def sampleRawProc : ProcRaw :=
  ⟨JVal.undef, none, none, JVal.str ['a', 'b', 'c'], JVal.undef, JVal.undef,
    JVal.undef, JVal.str ['x'], JVal.undef, JVal.undef⟩

/-- A raw entry with every cpu and memory property missing. -/
def sampleMissingProc : ProcRaw :=
  ⟨JVal.undef, none, none, JVal.undef, JVal.undef, JVal.undef, JVal.undef,
    JVal.undef, JVal.undef, JVal.undef⟩

/-- C8 witness: the non-numeric entry normalizes to zero cpu and zero
memory, each through its own implication, and so does the entry with
every field missing. -/
theorem normalize_coerces_to_zero_witness :
    (normProc sampleRawProc).cpu = 0 ∧ (normProc sampleRawProc).mem = 0 ∧
      (normProc sampleMissingProc).cpu = 0 ∧
      (normProc sampleMissingProc).mem = 0 :=
  ⟨(normalize_coerces_to_zero [sampleRawProc] sampleRawProc).2.1 (by decide),
    (normalize_coerces_to_zero [sampleRawProc] sampleRawProc).2.2.2.1 (by decide),
    (normalize_coerces_to_zero [sampleMissingProc] sampleMissingProc).1 (by decide),
    (normalize_coerces_to_zero [sampleMissingProc] sampleMissingProc).2.2.1
      (by decide)⟩

/-- Split a character list at newlines: the piece before the first
newline, and the pieces after each newline. -/
def splitNlAux : List Char → List Char × List (List Char)
  | [] => ([], [])
  | c :: cs =>
      let r := splitNlAux cs
      if c = '\n' then ([], r.1 :: r.2) else (c :: r.1, r.2)

/-- JS `split('\n')`: always at least one piece. -/
def splitNl (s : List Char) : List (List Char) :=
  (splitNlAux s).1 :: (splitNlAux s).2

/-- JS `slice(start)` on a list, a negative start counting from the
end. -/
def jsSliceFrom {α : Type} (start : ℤ) (l : List α) : List α :=
  if start < 0 then l.drop (l.length - start.natAbs) else l.drop start.toNat

/-- script.js line 597: `parseInt(req.query.n, 10) || 200` — an absent
parameter parses to NaN and falls back to 200, as does an explicit
zero. -/
def parseIntOr200 (nq : Option ℤ) : ℤ :=
  match nq with
  | none => 200
  | some v => if v = 0 then 200 else v

/-- script.js lines 594-604, `/api/logs`: `[]` when the log file does not
exist, otherwise the last `n` entries of the trimmed content split on
newlines (`all.slice(-n)`). -/
def apiLogs (fileExists : Bool) (content : List Char) (nq : Option ℤ) :
    List (List Char) :=
  if fileExists then
    jsSliceFrom (-parseIntOr200 nq) (splitNl (trimWs content))
  else []

/-- script.js lines 521-525, `appendLogAsync`: append one line and a
newline to the log content. -/
def appendLog (content line : List Char) : List Char :=
  content ++ line ++ ['\n']

/-- The log content after appending each line in order to an empty
file. -/
def logContent (lines : List (List Char)) : List Char :=
  lines.foldl appendLog []

/-- The lines joined with single newline separators. -/
def intercalNl : List (List Char) → List Char
  | [] => []
  | [l] => l
  | l :: ls => l ++ '\n' :: intercalNl ls

/-- A line the cron logger can produce: nonempty, no embedded newline,
non-whitespace first and last characters (every produced log line starts
with a bracket and ends with a percent sign). -/
def cleanLine (l : List Char) : Bool :=
  !l.isEmpty && l.all (fun c => !(c = '\n')) &&
    (match l.head? with
      | some c => !isWsChar c
      | none => true) &&
    (match l.getLast? with
      | some c => !isWsChar c
      | none => true)

/-- A clean line is nonempty. -/
theorem cleanLine_ne_nil {l : List Char} (h : cleanLine l = true) : l ≠ [] := by
  intro hnil
  rw [hnil] at h
  simp [cleanLine] at h

/-- A clean line holds no newline. -/
theorem cleanLine_no_nl {l : List Char} (h : cleanLine l = true) :
    ∀ c ∈ l, ¬(c = '\n') := by
  intro c hc
  simp only [cleanLine, Bool.and_eq_true, List.all_eq_true] at h
  have := h.1.1.2 c hc
  simpa using this

/-- A clean line starts with a non-whitespace character. -/
theorem cleanLine_head {c : Char} {cs : List Char}
    (h : cleanLine (c :: cs) = true) : isWsChar c = false := by
  simp only [cleanLine, Bool.and_eq_true] at h
  have := h.1.2
  simpa [List.head?] using this

/-- A clean line ends with a non-whitespace character. -/
theorem cleanLine_last {l : List Char} {d : Char} {rest : List Char}
    (h : cleanLine l = true) (hr : l.reverse = d :: rest) : isWsChar d = false := by
  have hlast : l.getLast? = some d := by
    rw [← List.head?_reverse, hr, List.head?]
  simp only [cleanLine, Bool.and_eq_true] at h
  have := h.2
  rw [hlast] at this
  simpa using this

/-- Appending into the fold shifts out as a prefix. -/
theorem logContent_shift : ∀ (ls : List (List Char)) (acc : List Char),
    List.foldl appendLog acc ls = acc ++ List.foldl appendLog [] ls
  | [], acc => by simp
  | l :: ls, acc => by
      show List.foldl appendLog (appendLog acc l) ls =
        acc ++ List.foldl appendLog (appendLog [] l) ls
      rw [logContent_shift ls (appendLog acc l), logContent_shift ls (appendLog [] l)]
      simp [appendLog, List.append_assoc]

/-- The folded log content is the joined lines followed by one final
newline. -/
theorem logContent_eq : ∀ lines : List (List Char), lines ≠ [] →
    logContent lines = intercalNl lines ++ ['\n']
  | [], h => absurd rfl h
  | [l], _ => by simp [logContent, appendLog, intercalNl]
  | l :: l2 :: ls, _ => by
      have ih := logContent_eq (l2 :: ls) (by simp)
      show List.foldl appendLog (appendLog [] l) (l2 :: ls) = _
      rw [logContent_shift (l2 :: ls) (appendLog [] l)]
      have hfold : List.foldl appendLog [] (l2 :: ls) = logContent (l2 :: ls) := rfl
      rw [hfold, ih]
      show ([] ++ l ++ ['\n']) ++ (intercalNl (l2 :: ls) ++ ['\n']) =
        (l ++ '\n' :: intercalNl (l2 :: ls)) ++ ['\n']
      simp [List.append_assoc]

/-- The joined lines of a nonempty list with a nonempty head start with
that head character. -/
theorem intercalNl_head (c : Char) (cs : List Char) :
    ∀ ls : List (List Char), ∃ r, intercalNl ((c :: cs) :: ls) = c :: r
  | [] => ⟨cs, rfl⟩
  | l :: ls => ⟨cs ++ '\n' :: intercalNl (l :: ls), rfl⟩

/-- The reverse of the joined lines starts with the last character of the
last line. -/
theorem intercalNl_reverse (d : Char) (rest : List Char) :
    ∀ (ys : List (List Char)) (l : List Char), l.reverse = d :: rest →
      ∃ r, (intercalNl (ys ++ [l])).reverse = d :: r
  | [], l, h => ⟨rest, by simpa [intercalNl] using h⟩
  | y :: ys, l, h => by
      obtain ⟨r, hr⟩ := intercalNl_reverse d rest ys l h
      obtain ⟨m, ms, hm⟩ : ∃ m ms, ys ++ [l] = m :: ms := by
        cases ys
        · exact ⟨l, [], rfl⟩
        · exact ⟨_, _, rfl⟩
      refine ⟨r ++ '\n' :: y.reverse, ?_⟩
      have hunf : intercalNl ((y :: ys) ++ [l]) =
          y ++ '\n' :: intercalNl (ys ++ [l]) := by
        rw [show (y :: ys) ++ [l] = y :: m :: ms by rw [List.cons_append, hm], hm]
        rfl
      rw [hunf, List.reverse_append, List.reverse_cons, hr]
      simp

/-- Splitting a newline-free list yields the one piece. -/
theorem splitNlAux_no_nl : ∀ l : List Char, (∀ c ∈ l, ¬(c = '\n')) →
    splitNlAux l = (l, [])
  | [], _ => rfl
  | c :: cs, h => by
      have hc : ¬(c = '\n') := h c (by simp)
      have ih := splitNlAux_no_nl cs (fun d hd => h d (by simp [hd]))
      simp [splitNlAux, ih, hc]

/-- Splitting past a newline-free prefix extends the first piece. -/
theorem splitNlAux_append (s : List Char) : ∀ l : List Char,
    (∀ c ∈ l, ¬(c = '\n')) →
    splitNlAux (l ++ s) = (l ++ (splitNlAux s).1, (splitNlAux s).2)
  | [], _ => by simp
  | c :: cs, h => by
      have hc : ¬(c = '\n') := h c (by simp)
      have ih := splitNlAux_append s cs (fun d hd => h d (by simp [hd]))
      simp [splitNlAux, ih, hc]

/-- Splitting the joined lines recovers the lines. -/
theorem splitNl_intercal : ∀ lines : List (List Char), lines ≠ [] →
    (∀ l ∈ lines, ∀ c ∈ l, ¬(c = '\n')) →
    splitNl (intercalNl lines) = lines
  | [], h, _ => absurd rfl h
  | [l], _, h => by
      have := splitNlAux_no_nl l (h l (by simp))
      simp [splitNl, intercalNl, this]
  | l :: l2 :: ls, _, h => by
      have hnonl : ∀ c ∈ l, ¬(c = '\n') := h l (by simp)
      have ih := splitNl_intercal (l2 :: ls) (by simp)
        (fun m hm => h m (by simp [hm]))
      have hstep : intercalNl (l :: l2 :: ls) =
          l ++ '\n' :: intercalNl (l2 :: ls) := rfl
      rw [hstep]
      have haux := splitNlAux_append ('\n' :: intercalNl (l2 :: ls)) l hnonl
      have hnl : splitNlAux ('\n' :: intercalNl (l2 :: ls)) =
          ([], (splitNlAux (intercalNl (l2 :: ls))).1 ::
            (splitNlAux (intercalNl (l2 :: ls))).2) := by
        simp [splitNlAux]
      show (splitNlAux (l ++ '\n' :: intercalNl (l2 :: ls))).1 ::
        (splitNlAux (l ++ '\n' :: intercalNl (l2 :: ls))).2 = l :: l2 :: ls
      rw [haux, hnl]
      simp only [List.append_nil]
      show l :: splitNl (intercalNl (l2 :: ls)) = l :: l2 :: ls
      rw [ih]

/-- The trimmed log content is exactly the joined lines: the final
newline is stripped and nothing else is. -/
theorem trim_logContent (lines : List (List Char)) (hne : lines ≠ [])
    (hc : ∀ l ∈ lines, cleanLine l = true) :
    trimWs (logContent lines) = intercalNl lines := by
  rw [logContent_eq lines hne]
  obtain ⟨l0, ls, rfl⟩ : ∃ l0 ls, lines = l0 :: ls := by
    cases lines
    · exact absurd rfl hne
    · exact ⟨_, _, rfl⟩
  obtain ⟨c, cs, rfl⟩ : ∃ c cs, l0 = c :: cs := by
    cases hl : l0
    · exact absurd hl (cleanLine_ne_nil (hc l0 (by simp)))
    · exact ⟨_, _, rfl⟩
  have hhead : isWsChar c = false := cleanLine_head (hc (c :: cs) (by simp))
  obtain ⟨m, hm⟩ := intercalNl_head c cs ls
  obtain ⟨ys, ll, hys⟩ : ∃ ys ll, (c :: cs) :: ls = ys ++ [ll] := by
    cases hrev : ((c :: cs) :: ls).reverse with
    | nil => simp at hrev
    | cons a as =>
        refine ⟨as.reverse, a, ?_⟩
        rw [← List.reverse_reverse ((c :: cs) :: ls), hrev]
        simp
  have hll : cleanLine ll = true := by
    apply hc
    rw [hys]
    simp
  obtain ⟨d, rest, hrd⟩ : ∃ d rest, ll.reverse = d :: rest := by
    cases hrl : ll.reverse with
    | nil =>
        have : ll = [] := by
          have := congrArg List.reverse hrl
          simpa using this
        exact absurd this (cleanLine_ne_nil hll)
    | cons a as => exact ⟨_, _, rfl⟩
  have hlastws : isWsChar d = false := cleanLine_last hll hrd
  obtain ⟨r, hr⟩ := by
    have := intercalNl_reverse d rest ys ll hrd
    rw [← hys] at this
    exact this
  unfold trimWs
  have h1 : ((intercalNl ((c :: cs) :: ls) ++ ['\n']).dropWhile isWsChar) =
      intercalNl ((c :: cs) :: ls) ++ ['\n'] := by
    rw [hm]
    rw [List.cons_append]
    rw [List.dropWhile_cons]
    simp [hhead]
  rw [h1, List.reverse_append]
  have h2 : (['\n'].reverse ++ (intercalNl ((c :: cs) :: ls)).reverse) =
      '\n' :: (intercalNl ((c :: cs) :: ls)).reverse := by simp
  rw [h2, List.dropWhile_cons]
  have hnlws : isWsChar '\n' = true := by decide
  rw [if_pos (by simp [hnlws]), hr, List.dropWhile_cons, if_neg (by simp [hlastws])]
  rw [← hr, List.reverse_reverse]

/-- Dropping from the front leaves a suffix of bounded length. -/
theorem jsSliceFrom_neg_suffix {α : Type} (n : ℤ) (hn : 0 < n) (l : List α) :
    jsSliceFrom (-n) l <:+ l ∧ (jsSliceFrom (-n) l).length ≤ n.natAbs := by
  have hlt : -n < 0 := by omega
  unfold jsSliceFrom
  rw [if_pos hlt]
  refine ⟨List.drop_suffix _ _, ?_⟩
  rw [List.length_drop]
  have habs : (-n).natAbs = n.natAbs := Int.natAbs_neg n
  omega

/-- C5: `/api/logs` answers `[]` when the log file is absent; for a log
built by appending clean lines and a positive `n` it answers at most `n`
lines forming a suffix of the appended lines in order; an absent
parameter behaves as `n = 200`. -/
theorem logs_last_n_suffix (lines : List (List Char)) (n : ℤ)
    (content : List Char) (nq : Option ℤ)
    (hne : lines ≠ []) (hcl : ∀ l ∈ lines, cleanLine l = true) (hn : 0 < n) :
    apiLogs false content nq = [] ∧
      apiLogs true (logContent lines) (some n) <:+ lines ∧
      (apiLogs true (logContent lines) (some n)).length ≤ n.natAbs ∧
      apiLogs true (logContent lines) none =
        apiLogs true (logContent lines) (some 200) := by
  have hparsed : splitNl (trimWs (logContent lines)) = lines := by
    rw [trim_logContent lines hne hcl]
    exact splitNl_intercal lines hne (fun l hl => cleanLine_no_nl (hcl l hl))
  have hpn : parseIntOr200 (some n) = n := by
    have hn0 : n ≠ 0 := by omega
    simp [parseIntOr200, hn0]
  refine ⟨rfl, ?_, ?_, ?_⟩
  · show jsSliceFrom (-parseIntOr200 (some n)) (splitNl (trimWs (logContent lines)))
      <:+ lines
    rw [hpn, hparsed]
    exact (jsSliceFrom_neg_suffix n hn lines).1
  · show (jsSliceFrom (-parseIntOr200 (some n))
      (splitNl (trimWs (logContent lines)))).length ≤ n.natAbs
    rw [hpn, hparsed]
    exact (jsSliceFrom_neg_suffix n hn lines).2
  · have h200 : parseIntOr200 none = parseIntOr200 (some 200) := by
      simp [parseIntOr200]
    simp only [apiLogs, h200]

/-- C5 witness: two bracketed lines and a request for the last one. -/
theorem logs_last_n_suffix_witness :
    apiLogs false ['z'] none = [] ∧
      apiLogs true (logContent [['[', 'a', ']'], ['[', 'b', ']']]) (some 1)
        <:+ [['[', 'a', ']'], ['[', 'b', ']']] ∧
      (apiLogs true (logContent [['[', 'a', ']'], ['[', 'b', ']']]) (some 1)).length
        ≤ (1 : ℤ).natAbs ∧
      apiLogs true (logContent [['[', 'a', ']'], ['[', 'b', ']']]) none =
        apiLogs true (logContent [['[', 'a', ']'], ['[', 'b', ']']]) (some 200) :=
  logs_last_n_suffix [['[', 'a', ']'], ['[', 'b', ']']] 1 ['z'] none
    (by decide) (by decide) (by decide)

/-- script.js line 641: `(p.name || '').replace(/"/g, '""')` — every
quote character is replaced by two quote characters. -/
def replaceQuote : List Char → List Char
  | [] => []
  | c :: cs =>
      if c = '"' then '"' :: '"' :: replaceQuote cs else c :: replaceQuote cs

/-- script.js line 641: the emitted name field — the escaped name wrapped
in quotes; a missing name behaves as the empty string (`p.name || ''`). -/
def csvNameField (name : Option (List Char)) : List Char :=
  '"' :: replaceQuote (name.getD []) ++ ['"']

/-- Modelled from the spec: standard CSV quoting — wrap the field in
quote characters and double every embedded quote character. -/
def csvQuoteStd (s : List Char) : List Char :=
  '"' :: (s.map fun c => if c = '"' then ['"', '"'] else [c]).flatten ++ ['"']

/-- script.js lines 638-642: one process row of the tabular export, the
numeric renderings of pid, cpu and mem taken as given character lists
(JS number-to-string conversion is outside the modelled fragment). -/
def csvProcRow (pidStr : List Char) (name : Option (List Char))
    (cpuStr memStr : List Char) : List Char :=
  pidStr ++ ',' :: csvNameField name ++ ',' :: cpuStr ++ ',' :: memStr ++ ['\n']

/-- The source's global replace equals the per-character description. -/
theorem replaceQuote_eq_std : ∀ s : List Char,
    replaceQuote s = (s.map fun c => if c = '"' then ['"', '"'] else [c]).flatten
  | [] => rfl
  | c :: cs => by
      by_cases h : c = '"'
      · simp [replaceQuote, h, replaceQuote_eq_std cs]
      · simp [replaceQuote, h, replaceQuote_eq_std cs]

/-- C9: in every process row of the tabular export the name field is the
standard CSV quoting of the name — wrapped in quotes with each embedded
quote doubled — and a missing name is quoted as the empty string. -/
theorem csv_name_field_standard_quoting :
    (∀ pidStr name cpuStr memStr,
      csvProcRow pidStr (some name) cpuStr memStr =
        pidStr ++ ',' :: csvQuoteStd name ++ ',' :: cpuStr ++ ',' :: memStr ++ ['\n']) ∧
      (∀ name, csvNameField (some name) = csvQuoteStd name) ∧
      csvNameField none = csvQuoteStd [] := by
  have hf : ∀ name, csvNameField (some name) = csvQuoteStd name := by
    intro name
    show '"' :: replaceQuote name ++ ['"'] = _
    rw [replaceQuote_eq_std name]
    rfl
  refine ⟨?_, hf, rfl⟩
  intro pidStr name cpuStr memStr
  show pidStr ++ ',' :: csvNameField (some name) ++ ',' :: cpuStr ++ ',' :: memStr ++ ['\n'] = _
  rw [hf]

/-- JS `toLowerCase` on the ASCII fragment. -/
def jsLower (s : List Char) : List Char :=
  s.map Char.toLower

/-- The two export formats of `/api/snapshot`. -/
inductive SnapFormat where
  | pdf
  | csv
deriving DecidableEq, Repr

/-- script.js line 609: `(req.query.fmt || 'csv').toLowerCase()` — an
absent or empty parameter falls back to the csv token. -/
def snapshotFmt (q : Option (List Char)) : List Char :=
  jsLower (match q with
    | none => ['c', 's', 'v']
    | some s => if s = [] then ['c', 's', 'v'] else s)

/-- script.js lines 618-647: the branch taken — the document export for
the pdf token, the tabular export for anything else. -/
def snapshotFormat (q : Option (List Char)) : SnapFormat :=
  if snapshotFmt q = ['p', 'd', 'f'] then SnapFormat.pdf else SnapFormat.csv

/-- C10: `/api/snapshot` compares `fmt` case-insensitively: the document
export is produced exactly for a present parameter whose lowercasing is
the pdf token, and every other request — absent, empty or unrecognized —
produces the tabular export. -/
theorem snapshot_fmt_dispatch (q : Option (List Char)) :
    (snapshotFormat q = SnapFormat.pdf ↔
      ∃ s, q = some s ∧ jsLower s = ['p', 'd', 'f']) ∧
      (snapshotFormat q = SnapFormat.csv ↔
        ∀ s, q = some s → jsLower s ≠ ['p', 'd', 'f']) := by
  match q with
  | none =>
      constructor
      · constructor
        · intro h
          exact absurd h (by decide)
        · rintro ⟨s, hs, _⟩
          exact absurd hs (by simp)
      · constructor
        · intro _ s hs
          exact absurd hs (by simp)
        · intro _
          decide
  | some s =>
      by_cases hemp : s = []
      · subst hemp
        constructor
        · constructor
          · intro h
            exact absurd h (by decide)
          · rintro ⟨s2, hs2, hlow⟩
            obtain rfl : ([] : List Char) = s2 := by injection hs2
            exact absurd hlow (by decide)
        · constructor
          · rintro _ s2 hs2
            obtain rfl : ([] : List Char) = s2 := by injection hs2
            decide
          · intro _
            decide
      · have hfmt : snapshotFmt (some s) = jsLower s := by
          simp [snapshotFmt, hemp]
        constructor
        · constructor
          · intro h
            refine ⟨s, rfl, ?_⟩
            by_contra hne
            rw [snapshotFormat, hfmt, if_neg hne] at h
            exact absurd h (by decide)
          · rintro ⟨s2, hs2, hlow⟩
            obtain rfl : s = s2 := by injection hs2
            rw [snapshotFormat, hfmt, if_pos hlow]
        · constructor
          · intro h s2 hs2 hlow
            obtain rfl : s = s2 := by injection hs2
            rw [snapshotFormat, hfmt, if_pos hlow] at h
            exact absurd h (by decide)
          · intro h
            have hne := h s rfl
            rw [snapshotFormat, hfmt, if_neg hne]

end OSDash
